import Mathlib

/-!
Shallow embedding of `simulators/ethereum/engine/testenv.go` from the hive
repository: the per-test environment that builds and submits signed
transactions, probes node liveness, and manages a reusable deadline context.

Go `uint64` counters are modelled as `Nat` (all arithmetic here is guarded
subtraction / division and never wraps), `*big.Int` amounts as `Int`, byte
slices as `List Nat`, and addresses as `Nat`.  External effects (the outcome
of `types.SignTx`, of `Eth.SendTransaction`, of TCP dial attempts, and the
firing of timeout channels) are inputs to the model, so that each code path
of the source is reachable in the embedding.
-/

namespace TestEnvGo

/-- Source: go-ethereum `types.LegacyTxType` (value 0), referenced by
`makeNextTransaction`. -/
def LegacyTxType : Nat := 0

/-- Source: go-ethereum `types.DynamicFeeTxType` (value 2), referenced by
`makeNextTransaction`. -/
def DynamicFeeTxType : Nat := 2

/-- Addresses are modelled as natural numbers. -/
abbrev Address := Nat

/-- Source: `type TestTransactionType int` with the three constants
`UnspecifiedTransactionType`, `LegacyTxOnly`, `DynamicFeeTxOnly`
(testenv.go lines 26-32). -/
inductive TestTransactionType where
  | UnspecifiedTransactionType
  | LegacyTxOnly
  | DynamicFeeTxOnly
deriving DecidableEq, Repr

/-- Modelled from the spec: the package-level configured constants
`gasPrice`, `gasTipPrice` and `chainID` are referenced by testenv.go but
defined in another file of the engine simulator that is not under src/;
the spec calls them "the fixed configured gas price", the tip price and
"a fixed chain identifier", so they are carried as an explicit
configuration record. -/
structure Config where
  gasPrice : Int
  gasTipPrice : Int
  chainID : Int
deriving DecidableEq, Repr

/-- Source: the hex string of `vaultKey` (testenv.go line 23); signing is
modelled symbolically, so the key is kept as its hex literal. -/
def vaultKeyHex : String := "63b508a03c3b5937ceb903af8b1b0c191012ef6eb7e9c3fb7afa94e5d214d376"

/-- Source: `types.TxData` restricted to the two variants `testenv.go`
builds: `types.LegacyTx` (fields Nonce, To, Value, Gas, GasPrice, Data) and
`types.DynamicFeeTx` (fields Nonce, Gas, GasTipCap, GasFeeCap, To, Value,
Data). -/
inductive TxData where
  | legacy (nonce : Nat) (To : Option Address) (value : Int) (gas : Nat)
      (gasPrice : Int) (data : List Nat)
  | dynamicFee (nonce : Nat) (gas : Nat) (gasTipCap : Int) (gasFeeCap : Int)
      (To : Option Address) (value : Int) (data : List Nat)
deriving DecidableEq, Repr

/-- The Nonce field of a transaction record. -/
def TxData.nonce : TxData → Nat
  | .legacy n _ _ _ _ _ => n
  | .dynamicFee n _ _ _ _ _ _ => n

/-- The Gas (gas limit) field of a transaction record. -/
def TxData.gas : TxData → Nat
  | .legacy _ _ _ g _ _ => g
  | .dynamicFee _ g _ _ _ _ _ => g

/-- The go-ethereum transaction type tag of a transaction record. -/
def TxData.txType : TxData → Nat
  | .legacy _ _ _ _ _ _ => LegacyTxType
  | .dynamicFee _ _ _ _ _ _ _ => DynamicFeeTxType

/-- Source: the result of `types.SignTx(tx, types.NewLondonSigner(chainID),
vaultKey)` — the ECDSA computation itself is external cryptography, so a
signed transaction is modelled as the payload bound to the chain id and key
it was signed under. -/
structure SignedTransaction where
  txData : TxData
  signerChainId : Int
  signingKey : String
deriving DecidableEq, Repr

/-- Fatal test-ending conditions raised through `t.Fatalf` in testenv.go:
a signing failure (line 243) or a global-timeout expiry (line 260). -/
inductive FatalError where
  | signingFailure (msg : String)
  | timeout (msg : String)
deriving DecidableEq, Repr

/-- Source: the fields of `TestEnv` (testenv.go lines 35-69) that the core
logic reads or writes: the vault-account `nonce` counter, the
`TestTransactionType` policy, and `lastCtx` of the deadline-context pair.
`nextCtxId`, `issued` and `cancelled` instrument the external `context`
package: each `context.WithTimeout` call yields a fresh id recorded in
`issued`, and each invocation of a stored `CancelFunc` appends that
context's id to `cancelled`. -/
structure TestEnv where
  nonce : Nat
  testTransactionType : TestTransactionType
  lastCtx : Option Nat
  nextCtxId : Nat
  issued : List Nat
  cancelled : List Nat
deriving DecidableEq, Repr

/-- Source: `makeNextTransaction` (testenv.go lines 191-248).
`signErr` is the outcome of the external `types.SignTx` call.  On a signing
error the source calls `t.Fatalf`, which (per the spec, signing failure is
"fatal to the test, not retryable") aborts the test body, so `t.nonce++`
on line 246 is never reached and the environment is returned unchanged
alongside the fatal error; on success the signed transaction is returned
and the stored nonce is incremented by one. -/
def makeNextTransaction (cfg : Config) (t : TestEnv) (recipient : Option Address)
    (gasLimit : Nat) (amount : Int) (payload : List Nat) (signErr : Option String) :
    Except FatalError SignedTransaction × TestEnv :=
  let txTypeToUse : Nat :=
    match t.testTransactionType with
    | .UnspecifiedTransactionType =>
      -- Select the type of tx based on the nonce (t.nonce % 2 is 0 or 1).
      match t.nonce % 2 with
      | 0 => LegacyTxType
      | _ => DynamicFeeTxType
    | .LegacyTxOnly => LegacyTxType
    | .DynamicFeeTxOnly => DynamicFeeTxType
  let newTxData : TxData :=
    if txTypeToUse = LegacyTxType then
      .legacy t.nonce recipient amount gasLimit cfg.gasPrice payload
    else
      -- gasFeeCap := new(big.Int).Set(gasPrice); gasTipCap := new(big.Int).Set(gasTipPrice)
      .dynamicFee t.nonce gasLimit cfg.gasTipPrice cfg.gasPrice recipient amount payload
  match signErr with
  | some e => (.error (.signingFailure e), t)
  | none =>
    (.ok { txData := newTxData, signerChainId := cfg.chainID, signingKey := vaultKeyHex },
     { t with nonce := t.nonce + 1 })

example :
    (makeNextTransaction ⟨10, 3, 7⟩
      { nonce := 0, testTransactionType := .UnspecifiedTransactionType,
        lastCtx := none, nextCtxId := 0, issued := [], cancelled := [] }
      (some 5) 75000 99 [] none).1 =
    .ok { txData := .legacy 0 (some 5) 99 75000 10 [],
          signerChainId := 7, signingKey := vaultKeyHex } := rfl

example :
    (makeNextTransaction ⟨10, 3, 7⟩
      { nonce := 1, testTransactionType := .UnspecifiedTransactionType,
        lastCtx := none, nextCtxId := 0, issued := [], cancelled := [] }
      (some 5) 75000 99 [] none).1 =
    .ok { txData := .dynamicFee 1 75000 3 10 (some 5) 99 [],
          signerChainId := 7, signingKey := vaultKeyHex } := rfl

/-- Sequence of transactions built by repeated `makeNextTransaction` calls
with successful signing: models a test body building `n` transactions in a
row with fixed recipient, gas limit, amount and payload. -/
def buildSeq (cfg : Config) (t : TestEnv) (recipient : Option Address)
    (gasLimit : Nat) (amount : Int) (payload : List Nat) :
    Nat → List SignedTransaction × TestEnv
  | 0 => ([], t)
  | n + 1 =>
    match makeNextTransaction cfg t recipient gasLimit amount payload none with
    | (.ok tx, t1) =>
      let rest := buildSeq cfg t1 recipient gasLimit amount payload n
      (tx :: rest.1, rest.2)
    | (.error _, t1) => ([], t1)

/-- Outcome of the retry loop of `sendNextTransaction` /
`sendNextBigContractTransaction`. -/
inductive SendResult where
  | accepted (tx : SignedTransaction)
  | fatal (e : FatalError)
  | outOfFuel
deriving DecidableEq, Repr

/-- Source: the `for` loop of `sendNextTransaction` (testenv.go lines
252-262).  `sendErr i` is the outcome of the `i`-th
`node.Eth.SendTransaction` attempt (`none` = accepted); `timeoutFires i`
tells whether, in the `select` after the `i`-th failed attempt, the global
`t.Timeout` channel fires before the one-second `time.After` backoff.
The loop has no iteration bound of its own, so it is run on explicit fuel;
`outOfFuel` marks a run cut off by the fuel, never a result of the code. -/
def sendLoop (tx : SignedTransaction) (sendErr : Nat → Option String)
    (timeoutFires : Nat → Bool) : Nat → Nat → SendResult
  | 0, _ => .outOfFuel
  | fuel + 1, i =>
    match sendErr i with
    | none => .accepted tx
    | some e =>
      if timeoutFires i then .fatal (.timeout e)
      else sendLoop tx sendErr timeoutFires fuel (i + 1)

/-- Source: the one-second retry backoff `time.After(time.Second)` of
`sendNextTransaction` (testenv.go line 258), in milliseconds. -/
def sendRetryBackoffMs : Nat := 1000

/-- Source: `sendNextTransaction` (testenv.go lines 250-263): build the next
transaction with the hard-coded gas limit 75000, then submit it in the
retry loop.  A fatal signing error aborts before any submission attempt. -/
def sendNextTransaction (cfg : Config) (t : TestEnv) (recipient : Address)
    (amount : Int) (payload : List Nat) (signErr : Option String)
    (sendErr : Nat → Option String) (timeoutFires : Nat → Bool) (fuel : Nat) :
    SendResult × TestEnv :=
  match makeNextTransaction cfg t (some recipient) 75000 amount payload signErr with
  | (.ok tx, t1) => (sendLoop tx sendErr timeoutFires fuel 0, t1)
  | (.error e, t1) => (.fatal e, t1)

/-- Source: the contract-length computation of
`makeNextBigContractTransaction` (testenv.go lines 268-275):
`contractLength := 0; if gasLimit > 21000+32000 then contractLength :=
(gasLimit-21000-32000)/200; if contractLength >= 1 then contractLength -= 1`.
Total GAS: Gtransaction == 21000, Gcreate == 32000, Gcodedeposit == 200. -/
def bigContractLength (gasLimit : Nat) : Nat :=
  if gasLimit > 21000 + 32000 then
    let contractLength := (gasLimit - 21000 - 32000) / 200
    if contractLength ≥ 1 then contractLength - 1 else contractLength
  else 0

/-- Source: `binary.BigEndian.PutUint64(buf, contractLength)` — the eight
big-endian bytes of a 64-bit value. -/
def bigEndian8 (n : Nat) : List Nat :=
  [n / 2 ^ 56 % 256, n / 2 ^ 48 % 256, n / 2 ^ 40 % 256, n / 2 ^ 32 % 256,
   n / 2 ^ 24 % 256, n / 2 ^ 16 % 256, n / 2 ^ 8 % 256, n % 256]

/-- Source: the init code assembled by `makeNextBigContractTransaction`
(testenv.go lines 279-284): PUSH8 (0x67), the byte length of the contract,
CODESIZE (0x38), RETURN (0xF3). -/
def bigContractInitCode (contractLength : Nat) : List Nat :=
  0x67 :: bigEndian8 contractLength ++ [0x38, 0xF3]

/-- Source: `makeNextBigContractTransaction` (testenv.go lines 266-287):
builds the init code for the computed contract length and hands it to
`makeNextTransaction` with a nil recipient and zero value (`big0`). -/
def makeNextBigContractTransaction (cfg : Config) (t : TestEnv) (gasLimit : Nat)
    (signErr : Option String) : Except FatalError SignedTransaction × TestEnv :=
  makeNextTransaction cfg t none gasLimit 0
    (bigContractInitCode (bigContractLength gasLimit)) signErr

/-- Source: `EthPortHTTP`, the HTTP RPC port of the client (a constant of
the engine-simulator package defined outside testenv.go). -/
def EthPortHTTP : Nat := 8545

/-- Source: `EnginePortHTTP`, the Engine API port of the client (a constant
of the engine-simulator package defined outside testenv.go). -/
def EnginePortHTTP : Nat := 8551

/-- Source: the `100 * time.Millisecond` ticker interval of
`CheckEthEngineLive` (testenv.go line 168), in milliseconds. -/
def checkLiveTickerMs : Nat := 100

/-- Source: the `time.Second*5` overall context timeout of
`CheckEthEngineLive` (testenv.go line 165), in milliseconds. -/
def checkLiveTimeoutMs : Nat := 5000

/-- Outcome of the liveness check: all ports reachable (with the tick at
which checking finished), the shared context deadline exceeded at a tick,
or the run cut off by fuel. -/
inductive LiveResult where
  | ok (time : Nat)
  | ctxErr (time : Nat)
  | outOfFuel
deriving DecidableEq, Repr

/-- Source: the nested loops of `CheckEthEngineLive` (testenv.go lines
172-187).  Time is counted in ticker ticks; one loop iteration consumes one
tick.  `ctxDone time` tells whether the shared five-second context has
expired by that tick (one deadline for the whole port list); `dialOk p time`
is the outcome of the dial attempt against port `p` at that tick (a
successful connection is closed immediately — the dial is a pure probe).
Each iteration first checks the context's done channel and otherwise dials
on the tick; a successful dial breaks `portcheckloop` and moves to the next
port of the list. -/
def checkLive (ctxDone : Nat → Bool) (dialOk : Nat → Nat → Bool) :
    List Nat → Nat → Nat → LiveResult
  | [], _, time => .ok time
  | _ :: _, 0, _ => .outOfFuel
  | p :: rest, fuel + 1, time =>
    if ctxDone time then .ctxErr time
    else if dialOk p time then checkLive ctxDone dialOk rest fuel (time + 1)
    else checkLive ctxDone dialOk (p :: rest) fuel (time + 1)

/-- Source: `CheckEthEngineLive` (testenv.go lines 164-189): run the port
check loop over the fixed list `[]int{EthPortHTTP, EnginePortHTTP}` from
tick 0. -/
def CheckEthEngineLive (ctxDone : Nat → Bool) (dialOk : Nat → Nat → Bool)
    (fuel : Nat) : LiveResult :=
  checkLive ctxDone dialOk [EthPortHTTP, EnginePortHTTP] fuel 0

/-- Source: the `Ctx` method (testenv.go lines 341-347): if a previous
context exists, cancel it, then create a fresh context with the default
timeout, store it as `lastCtx` and return it.  The fresh context's id is
returned together with the updated environment. -/
def TestEnv.Ctx (t : TestEnv) : Nat × TestEnv :=
  let t1 :=
    match t.lastCtx with
    | some c => { t with cancelled := c :: t.cancelled }
    | none => t
  let c := t1.nextCtxId
  (c, { t1 with lastCtx := some c, nextCtxId := c + 1, issued := t1.issued ++ [c] })

/-- Contexts issued by `Ctx` that have not been cancelled. -/
def TestEnv.liveCtxs (t : TestEnv) : List Nat :=
  t.issued.filter (fun i => t.cancelled.count i = 0)

/-- Well-formedness of the instrumented context state: ids are below the
fresh-id counter, issued ids are distinct, the stored `lastCtx` is an
issued, never-cancelled id, every other issued id has been cancelled, and
no id is cancelled twice. -/
def CtxWF (t : TestEnv) : Prop :=
  (∀ i ∈ t.issued, i < t.nextCtxId) ∧
  (∀ i ∈ t.cancelled, i < t.nextCtxId) ∧
  t.issued.Nodup ∧
  (∀ i, t.lastCtx = some i → i ∈ t.issued ∧ t.cancelled.count i = 0) ∧
  (∀ i ∈ t.issued, t.lastCtx ≠ some i → 1 ≤ t.cancelled.count i) ∧
  (∀ i, t.cancelled.count i ≤ 1)

/-- Events of a `RunTest` execution, in program order (deferred actions run
last-registered-first when the function returns or the test body aborts). -/
inductive RunEvent where
  | checkEthEngineLive
  | fatalPortsNotOpen
  | runTestBody
  | produceSingleBlock
  | syncCancel
  | closeTestend
  | cancelLastCtx
  | closeRpcClient
  | closeEngineClient
  | closeClients
deriving DecidableEq, Repr

/-- Source: the control flow of `RunTest` (testenv.go lines 71-149) as an
event trace.  `liveOk` is the outcome of `CheckEthEngineLive` (on failure
`t.Fatalf` aborts before the test body and before the final-block defer on
line 140 is even registered); `ttdReached` and `failed` are the values of
`clMocker.TTDReached` and `t.Failed()` when the deferred functions run;
`lastCtxLive` and `syncCancelSet` guard the two nil-checked deferred
cancellations.  Deferred functions run in reverse order of registration:
the final-block defer (line 140, only when registered), then sync-cancel
(line 124), test-end close (line 121), last-context cancel (line 113),
then the rpc client close, engine client close and `CloseClients` defers. -/
def RunTest (liveOk ttdReached failed lastCtxLive syncCancelSet : Bool) :
    List RunEvent :=
  (if liveOk then [.checkEthEngineLive, .runTestBody] ++
      (if ttdReached && !failed then [.produceSingleBlock] else [])
   else [.checkEthEngineLive, .fatalPortsNotOpen]) ++
  (if syncCancelSet then [.syncCancel] else []) ++
  [.closeTestend] ++
  (if lastCtxLive then [.cancelLastCtx] else []) ++
  [.closeRpcClient, .closeEngineClient, .closeClients]

/-- A sample configuration used for concrete runs: gas price 10, tip 3,
chain id 7. -/
def cfg0 : Config := ⟨10, 3, 7⟩

/-- A fresh sample environment under the Unspecified transaction policy. -/
def env0 : TestEnv :=
  { nonce := 0, testTransactionType := .UnspecifiedTransactionType,
    lastCtx := none, nextCtxId := 0, issued := [], cancelled := [] }

/-- A placeholder transaction used as the default of `List.getD`. -/
def dummyTx : SignedTransaction :=
  { txData := .legacy 0 none 0 0 0 [], signerChainId := 0, signingKey := "" }

/-- The sample environment at nonce 4. -/
def env4 : TestEnv := { env0 with nonce := 4 }

/-- The sample environment under the DynamicFeeTxOnly policy. -/
def envDyn : TestEnv := { env0 with testTransactionType := .DynamicFeeTxOnly }

lemma makeNextTransaction_some (cfg : Config) (t : TestEnv) (r : Option Address)
    (g : Nat) (a : Int) (p : List Nat) (e : String) :
    makeNextTransaction cfg t r g a p (some e) = (.error (.signingFailure e), t) := rfl

lemma makeNextTransaction_none (cfg : Config) (t : TestEnv) (r : Option Address)
    (g : Nat) (a : Int) (p : List Nat) :
    ∃ tx, makeNextTransaction cfg t r g a p none = (.ok tx, { t with nonce := t.nonce + 1 }) ∧
      tx.txData.nonce = t.nonce ∧ tx.txData.gas = g ∧
      tx.signerChainId = cfg.chainID ∧ tx.signingKey = vaultKeyHex := by
  refine ⟨_, rfl, ?_, ?_, rfl, rfl⟩ <;> · simp only [makeNextTransaction]; split <;> rfl

lemma makeNextTransaction_unspecified_even (cfg : Config) (t : TestEnv)
    (r : Option Address) (g : Nat) (a : Int) (p : List Nat)
    (h1 : t.testTransactionType = .UnspecifiedTransactionType) (h2 : t.nonce % 2 = 0) :
    makeNextTransaction cfg t r g a p none =
      (.ok ⟨.legacy t.nonce r a g cfg.gasPrice p, cfg.chainID, vaultKeyHex⟩,
       { t with nonce := t.nonce + 1 }) := by
  simp [makeNextTransaction, h1, h2, LegacyTxType, DynamicFeeTxType]

lemma makeNextTransaction_unspecified_odd (cfg : Config) (t : TestEnv)
    (r : Option Address) (g : Nat) (a : Int) (p : List Nat)
    (h1 : t.testTransactionType = .UnspecifiedTransactionType) (h2 : t.nonce % 2 = 1) :
    makeNextTransaction cfg t r g a p none =
      (.ok ⟨.dynamicFee t.nonce g cfg.gasTipPrice cfg.gasPrice r a p, cfg.chainID, vaultKeyHex⟩,
       { t with nonce := t.nonce + 1 }) := by
  simp [makeNextTransaction, h1, h2, LegacyTxType, DynamicFeeTxType]

lemma makeNextTransaction_legacyOnly (cfg : Config) (t : TestEnv)
    (r : Option Address) (g : Nat) (a : Int) (p : List Nat)
    (h1 : t.testTransactionType = .LegacyTxOnly) :
    makeNextTransaction cfg t r g a p none =
      (.ok ⟨.legacy t.nonce r a g cfg.gasPrice p, cfg.chainID, vaultKeyHex⟩,
       { t with nonce := t.nonce + 1 }) := by
  simp [makeNextTransaction, h1, LegacyTxType, DynamicFeeTxType]

lemma makeNextTransaction_dynamicOnly (cfg : Config) (t : TestEnv)
    (r : Option Address) (g : Nat) (a : Int) (p : List Nat)
    (h1 : t.testTransactionType = .DynamicFeeTxOnly) :
    makeNextTransaction cfg t r g a p none =
      (.ok ⟨.dynamicFee t.nonce g cfg.gasTipPrice cfg.gasPrice r a p, cfg.chainID, vaultKeyHex⟩,
       { t with nonce := t.nonce + 1 }) := by
  simp [makeNextTransaction, h1, LegacyTxType, DynamicFeeTxType]

/-- Claim C1, counterexample: a call on which signing fails aborts through
`t.Fatalf` before line 246 executes, so the stored nonce is NOT incremented,
refuting "this increment happens on every call regardless of outcome,
including when signing fails". -/
theorem makeNextTransaction_signingFailure_counterexample :
    makeNextTransaction cfg0 env0 (some 5) 75000 99 [] (some "sign error") =
      (.error (.signingFailure "sign error"), env0) ∧
    env0.nonce = 0 ∧
    (makeNextTransaction cfg0 env0 (some 5) 75000 99 [] (some "sign error")).2.nonce ≠
      env0.nonce + 1 := by
  exact ⟨rfl, rfl, by decide⟩

/-- Claim C1 (amended): on every call on which signing succeeds, the stored
nonce increases by exactly 1 and the built transaction carries the
pre-increment nonce value; on a call on which signing fails, the call ends
fatally with a signing-failure error and the stored nonce is unchanged. -/
theorem makeNextTransaction_nonce_increment (cfg : Config) (t : TestEnv)
    (r : Option Address) (g : Nat) (a : Int) (p : List Nat) :
    (∃ tx, makeNextTransaction cfg t r g a p none = (.ok tx, { t with nonce := t.nonce + 1 }) ∧
      tx.txData.nonce = t.nonce) ∧
    (∀ e, makeNextTransaction cfg t r g a p (some e) = (.error (.signingFailure e), t)) := by
  obtain ⟨tx, h1, h2, -⟩ := makeNextTransaction_none cfg t r g a p
  exact ⟨⟨tx, h1, h2⟩, fun e => rfl⟩

/-- Claim C2: under the Unspecified policy, the n-th built transaction's
type is determined by nonce parity — legacy at an even nonce, dynamic-fee
at an odd nonce — so a sequence built from any starting nonce alternates,
and from nonce 0 it begins with legacy. -/
theorem buildSeq_unspecified_alternates (cfg : Config) (r : Option Address)
    (g : Nat) (a : Int) (p : List Nat) :
    ∀ (n : Nat) (t : TestEnv), t.testTransactionType = .UnspecifiedTransactionType →
      (buildSeq cfg t r g a p n).1.length = n ∧
      ∀ i, i < n → ((buildSeq cfg t r g a p n).1.getD i dummyTx).txData.txType =
        (if (t.nonce + i) % 2 = 0 then LegacyTxType else DynamicFeeTxType) := by
  intro n
  induction n with
  | zero => exact fun t _ => ⟨rfl, fun i hi => absurd hi (by omega)⟩
  | succ n ih =>
    intro t ht
    have ih' := ih { t with nonce := t.nonce + 1 } ht
    rcases Nat.mod_two_eq_zero_or_one t.nonce with h2 | h2
    · simp only [buildSeq, makeNextTransaction_unspecified_even cfg t r g a p ht h2]
      refine ⟨by simp [ih'.1], ?_⟩
      intro i hi
      cases i with
      | zero => simp [TxData.txType, h2]
      | succ i =>
        have hidx : t.nonce + 1 + i = t.nonce + (i + 1) := by omega
        simpa [hidx] using ih'.2 i (by omega)
    · simp only [buildSeq, makeNextTransaction_unspecified_odd cfg t r g a p ht h2]
      refine ⟨by simp [ih'.1], ?_⟩
      intro i hi
      cases i with
      | zero => simp [TxData.txType, h2]
      | succ i =>
        have hidx : t.nonce + 1 + i = t.nonce + (i + 1) := by omega
        simpa [hidx] using ih'.2 i (by omega)

/-- Witness for C2: four transactions built from nonce 0 under the
Unspecified policy; the one at index 3 (nonce 3, odd) is dynamic-fee. -/
theorem buildSeq_unspecified_alternates_witness :
    (buildSeq cfg0 env0 (some 5) 75000 99 [] 4).1.length = 4 ∧
    ((buildSeq cfg0 env0 (some 5) 75000 99 [] 4).1.getD 3 dummyTx).txData.txType =
      (if (env0.nonce + 3) % 2 = 0 then LegacyTxType else DynamicFeeTxType) := by
  have h := buildSeq_unspecified_alternates cfg0 (some 5) 75000 99 [] 4 env0 rfl
  exact ⟨h.1, h.2 3 (by decide)⟩

/-- Claim C3, counterexample: at gasLimit = 53000 the computed body length
is 0 and the estimated gas cost 21000 + 32000 + 200*0 = 53000 is not below
the gasLimit, refuting the bound claimed "for every gasLimit". -/
theorem bigContractLength_gasBound_counterexample :
    ¬ (21000 + 32000 + 200 * bigContractLength 53000 < 53000) := by decide

/-- Claim C3 (amended): for every gasLimit strictly above 21000 + 32000,
the computed body length satisfies 21000 + 32000 + 200*length < gasLimit,
and for gasLimit = 21000 + 32000 + 200*k the computed body length equals
k - 1 when k ≥ 1 and 0 when k < 1. -/
theorem bigContractLength_gasBound :
    (∀ g : Nat, 21000 + 32000 < g → 21000 + 32000 + 200 * bigContractLength g < g) ∧
    (∀ k : Nat, bigContractLength (21000 + 32000 + 200 * k) =
      (if 1 ≤ k then k - 1 else 0)) := by
  constructor
  · intro g hg
    simp only [bigContractLength]
    rw [if_pos hg]
    split <;> omega
  · intro k
    rcases Nat.eq_zero_or_pos k with rfl | hk0
    · decide
    · have hk : 1 ≤ k := hk0
      rw [if_pos hk]
      simp only [bigContractLength]
      rw [if_pos (by omega : 21000 + 32000 + 200 * k > 21000 + 32000)]
      have h200 : 21000 + 32000 + 200 * k - 21000 - 32000 = 200 * k := by omega
      rw [h200, Nat.mul_div_cancel_left k (by norm_num : (0:Nat) < 200), if_pos hk]

/-- Witness for C3: at gasLimit 60000 the estimated cost stays below the
ceiling, and at gasLimit = 21000 + 32000 + 200*3 the body length is 2. -/
theorem bigContractLength_gasBound_witness :
    (21000 + 32000 + 200 * bigContractLength 60000 < 60000) ∧
    bigContractLength (21000 + 32000 + 200 * 3) = 2 := by
  exact ⟨bigContractLength_gasBound.1 60000 (by decide),
    by simpa using bigContractLength_gasBound.2 3⟩

/-- Claim C7: building at nonce 4 under a policy resolving to legacy
(Unspecified, since 4 is even, or LegacyTxOnly) with recipient R and value
V yields a signed legacy transaction with nonce 4, the configured gas
price, recipient R, value V, signed under the configured chain id with the
vault key, and leaves the stored nonce at 5. -/
theorem makeNextTransaction_legacy_nonce4 (cfg : Config) (t : TestEnv)
    (R : Address) (V : Int) (g : Nat) (p : List Nat) (h4 : t.nonce = 4)
    (hpol : t.testTransactionType = .UnspecifiedTransactionType ∨
      t.testTransactionType = .LegacyTxOnly) :
    makeNextTransaction cfg t (some R) g V p none =
      (.ok ⟨.legacy 4 (some R) V g cfg.gasPrice p, cfg.chainID, vaultKeyHex⟩,
       { t with nonce := 5 }) := by
  rcases hpol with hpol | hpol
  · rw [makeNextTransaction_unspecified_even cfg t (some R) g V p hpol (by rw [h4]), h4]
  · rw [makeNextTransaction_legacyOnly cfg t (some R) g V p hpol, h4]

/-- Witness for C7: the concrete build at nonce 4 with recipient 5 and
value 99 under the sample configuration. -/
theorem makeNextTransaction_legacy_nonce4_witness :
    makeNextTransaction cfg0 env4 (some 5) 75000 99 [] none =
      (.ok ⟨.legacy 4 (some 5) 99 75000 cfg0.gasPrice [], cfg0.chainID, vaultKeyHex⟩,
       { env4 with nonce := 5 }) :=
  makeNextTransaction_legacy_nonce4 cfg0 env4 5 99 75000 [] rfl (Or.inl rfl)

/-- Claim C8: over the `RunTest` event trace, the deferred
`produceSingleBlock` runs exactly once when the test body ran, the TTD was
reached, and the test had not failed at that point, and zero times
otherwise. -/
theorem RunTest_produceSingleBlock_iff :
    ∀ liveOk ttdReached failed lastCtxLive syncCancelSet : Bool,
      ((RunTest liveOk ttdReached failed lastCtxLive syncCancelSet).count .produceSingleBlock =
        (if liveOk && (ttdReached && !failed) then 1 else 0)) ∧
      ((RunTest true ttdReached failed lastCtxLive syncCancelSet).count .produceSingleBlock = 1 ↔
        (ttdReached = true ∧ failed = false)) := by decide

/-- Claim C10: every dynamic-fee transaction built by `makeNextTransaction`
has its gas-fee cap equal to the configured gasPrice (the same value legacy
transactions use as their single gas price) and its gas-tip cap equal to
the configured gasTipPrice. -/
theorem makeNextTransaction_dynamicFee_caps (cfg : Config) (t : TestEnv)
    (r : Option Address) (g : Nat) (a : Int) (p : List Nat) (tx : SignedTransaction)
    (n g2 : Nat) (tip fee : Int) (recv : Option Address) (v : Int) (d : List Nat)
    (h : (makeNextTransaction cfg t r g a p none).1 = .ok tx)
    (hd : tx.txData = .dynamicFee n g2 tip fee recv v d) :
    fee = cfg.gasPrice ∧ tip = cfg.gasTipPrice := by
  rcases ht : t.testTransactionType with _ | _ | _
  · rcases Nat.mod_two_eq_zero_or_one t.nonce with h2 | h2
    · rw [makeNextTransaction_unspecified_even cfg t r g a p ht h2] at h
      injection h with h
      rw [← h] at hd
      have hd' : TxData.legacy t.nonce r a g cfg.gasPrice p =
          TxData.dynamicFee n g2 tip fee recv v d := hd
      exact TxData.noConfusion hd'
    · rw [makeNextTransaction_unspecified_odd cfg t r g a p ht h2] at h
      injection h with h
      rw [← h] at hd
      have hd' : TxData.dynamicFee t.nonce g cfg.gasTipPrice cfg.gasPrice r a p =
          TxData.dynamicFee n g2 tip fee recv v d := hd
      injection hd' with e1 e2 e3 e4 e5 e6 e7
      exact ⟨e4.symm, e3.symm⟩
  · rw [makeNextTransaction_legacyOnly cfg t r g a p ht] at h
    injection h with h
    rw [← h] at hd
    have hd' : TxData.legacy t.nonce r a g cfg.gasPrice p =
        TxData.dynamicFee n g2 tip fee recv v d := hd
    exact TxData.noConfusion hd'
  · rw [makeNextTransaction_dynamicOnly cfg t r g a p ht] at h
    injection h with h
    rw [← h] at hd
    have hd' : TxData.dynamicFee t.nonce g cfg.gasTipPrice cfg.gasPrice r a p =
        TxData.dynamicFee n g2 tip fee recv v d := hd
    injection hd' with e1 e2 e3 e4 e5 e6 e7
    exact ⟨e4.symm, e3.symm⟩

/-- Witness for C10: the dynamic-fee transaction built at nonce 0 under the
DynamicFeeTxOnly policy has fee cap 10 = gasPrice and tip cap 3 =
gasTipPrice in the sample configuration. -/
theorem makeNextTransaction_dynamicFee_caps_witness :
    (10 : Int) = cfg0.gasPrice ∧ (3 : Int) = cfg0.gasTipPrice :=
  makeNextTransaction_dynamicFee_caps cfg0 envDyn (some 5) 75000 99 []
    ⟨.dynamicFee 0 75000 3 10 (some 5) 99 [], cfg0.chainID, vaultKeyHex⟩
    0 75000 3 10 (some 5) 99 [] rfl rfl

lemma sendLoop_accepted_eq (tx tx' : SignedTransaction) (se : Nat → Option String)
    (tf : Nat → Bool) : ∀ fuel i, sendLoop tx se tf fuel i = .accepted tx' →
    tx' = tx ∧ ∃ n, se (i + n) = none ∧ ∀ j, j < n → (se (i + j)).isSome ∧ tf (i + j) = false := by
  intro fuel
  induction fuel with
  | zero => intro i h; simp [sendLoop] at h
  | succ fuel ih =>
    intro i h
    rw [sendLoop] at h
    rcases hse : se i with _ | e
    · simp only [hse] at h
      injection h with h
      exact ⟨h.symm, 0, by simpa using hse, fun j hj => absurd hj (by omega)⟩
    · rcases htf : tf i with _ | _
      · simp only [hse, htf, if_neg (by simp : ¬ (false = true))] at h
        obtain ⟨htx, n, hn, hall⟩ := ih (i + 1) h
        have e1 : i + 1 + n = i + (n + 1) := by omega
        rw [e1] at hn
        refine ⟨htx, n + 1, hn, ?_⟩
        intro j hj
        cases j with
        | zero => exact ⟨by simp [hse], by simpa using htf⟩
        | succ j =>
          have e2 : i + (j + 1) = i + 1 + j := by omega
          rw [e2]
          exact hall j (by omega)
      · simp [hse, htf] at h

lemma sendLoop_first_success (tx : SignedTransaction) (se : Nat → Option String)
    (tf : Nat → Bool) : ∀ n fuel i, n < fuel → se (i + n) = none →
    (∀ j, j < n → (se (i + j)).isSome ∧ tf (i + j) = false) →
    sendLoop tx se tf fuel i = .accepted tx := by
  intro n
  induction n with
  | zero =>
    intro fuel i hf hse _
    match fuel, hf with
    | fuel + 1, _ =>
      rw [sendLoop]
      simp [show se i = none by simpa using hse]
  | succ n ih =>
    intro fuel i hf hse hall
    match fuel, hf with
    | fuel + 1, hf =>
      obtain ⟨hsome, htf⟩ := hall 0 (by omega)
      obtain ⟨e, he⟩ := Option.isSome_iff_exists.mp (by simpa using hsome)
      rw [sendLoop]
      simp only [show se i = some e by simpa using he,
        show tf i = false by simpa using htf, if_neg (by simp : ¬ (false = true))]
      refine ih fuel (i + 1) (by omega) (by rw [show i + 1 + n = i + (n + 1) by omega]; exact hse) ?_
      intro j hj
      rw [show i + 1 + j = i + (j + 1) by omega]
      exact hall (j + 1) (by omega)

lemma sendLoop_timeout_fatal (tx : SignedTransaction) (se : Nat → Option String)
    (tf : Nat → Bool) : ∀ m fuel i e, m < fuel → se (i + m) = some e → tf (i + m) = true →
    (∀ j, j < m → (se (i + j)).isSome ∧ tf (i + j) = false) →
    sendLoop tx se tf fuel i = .fatal (.timeout e) := by
  intro m
  induction m with
  | zero =>
    intro fuel i e hf hse htf _
    match fuel, hf with
    | fuel + 1, _ =>
      rw [sendLoop]
      simp [show se i = some e by simpa using hse, show tf i = true by simpa using htf]
  | succ m ih =>
    intro fuel i e hf hse htf hall
    match fuel, hf with
    | fuel + 1, hf =>
      obtain ⟨hsome, htf0⟩ := hall 0 (by omega)
      obtain ⟨e0, he0⟩ := Option.isSome_iff_exists.mp (by simpa using hsome)
      rw [sendLoop]
      simp only [show se i = some e0 by simpa using he0,
        show tf i = false by simpa using htf0, if_neg (by simp : ¬ (false = true))]
      refine ih fuel (i + 1) e (by omega)
        (by rw [show i + 1 + m = i + (m + 1) by omega]; exact hse)
        (by rw [show i + 1 + m = i + (m + 1) by omega]; exact htf) ?_
      intro j hj
      rw [show i + 1 + j = i + (j + 1) by omega]
      exact hall (j + 1) (by omega)

/-- Claim C4: the retry loop of `sendNextTransaction` returns the built
transaction exactly at the first accepted submission attempt (at any retry
depth below the fuel — there is no retry-count cap); if every attempt up to
some point fails and the global timeout channel fires in the select after
that failed attempt, the call fails fatally with a Timeout error carrying
the last submission error; an accepted result implies the success came
before any firing of the timeout signal was observed; and the inter-attempt
backoff raced against the timeout channel is the fixed one second. -/
theorem sendNextTransaction_retry_spec (cfg : Config) (t : TestEnv) (r : Address)
    (a : Int) (p : List Nat) (se : Nat → Option String) (tf : Nat → Bool) (fuel : Nat) :
    (∀ n, n < fuel → se n = none → (∀ j, j < n → (se j).isSome ∧ tf j = false) →
      ∃ tx, (makeNextTransaction cfg t (some r) 75000 a p none).1 = .ok tx ∧
        (sendNextTransaction cfg t r a p none se tf fuel).1 = .accepted tx) ∧
    (∀ m e, m < fuel → se m = some e → tf m = true →
      (∀ j, j < m → (se j).isSome ∧ tf j = false) →
      (sendNextTransaction cfg t r a p none se tf fuel).1 = .fatal (.timeout e)) ∧
    (∀ tx, (sendNextTransaction cfg t r a p none se tf fuel).1 = .accepted tx →
      (makeNextTransaction cfg t (some r) 75000 a p none).1 = .ok tx ∧
      ∃ n, se n = none ∧ ∀ j, j < n → (se j).isSome ∧ tf j = false) ∧
    sendRetryBackoffMs = 1000 := by
  obtain ⟨tx0, hmk, -, -, -, -⟩ := makeNextTransaction_none cfg t (some r) 75000 a p
  have hsend : (sendNextTransaction cfg t r a p none se tf fuel).1 =
      sendLoop tx0 se tf fuel 0 := by
    rw [sendNextTransaction, hmk]
  refine ⟨?_, ?_, ?_, rfl⟩
  · intro n hn hnone hall
    refine ⟨tx0, by rw [hmk], ?_⟩
    rw [hsend]
    exact sendLoop_first_success tx0 se tf n fuel 0 hn (by simpa using hnone)
      (fun j hj => by simpa using hall j hj)
  · intro m e hm hse htf hall
    rw [hsend]
    exact sendLoop_timeout_fatal tx0 se tf m fuel 0 e hm (by simpa using hse)
      (by simpa using htf) (fun j hj => by simpa using hall j hj)
  · intro tx hacc
    rw [hsend] at hacc
    obtain ⟨rfl, n, hn, hall⟩ := sendLoop_accepted_eq tx0 tx se tf fuel 0 hacc
    exact ⟨by rw [hmk], n, by simpa using hn, fun j hj => by simpa using hall j hj⟩

/-- Witness for C4: with the first two attempts failing, no timeout firing,
and the third attempt accepted, the loop returns the built transaction. -/
theorem sendNextTransaction_retry_spec_witness :
    ∃ tx, (makeNextTransaction cfg0 env0 (some 5) 75000 99 [] none).1 = .ok tx ∧
      (sendNextTransaction cfg0 env0 5 99 []
        none (fun n => if n < 2 then some "busy" else none) (fun _ => false) 5).1 =
        .accepted tx :=
  (sendNextTransaction_retry_spec cfg0 env0 5 99 []
    (fun n => if n < 2 then some "busy" else none) (fun _ => false) 5).1
    2 (by decide) rfl (by decide)

/-- Claim C9: every transaction accepted through `sendNextTransaction` has
gas limit exactly 75000, the hard-coded constant passed to the builder. -/
theorem sendNextTransaction_gasLimit_75000 (cfg : Config) (t : TestEnv) (r : Address)
    (a : Int) (p : List Nat) (signErr : Option String) (se : Nat → Option String)
    (tf : Nat → Bool) (fuel : Nat) (tx : SignedTransaction)
    (h : (sendNextTransaction cfg t r a p signErr se tf fuel).1 = .accepted tx) :
    tx.txData.gas = 75000 := by
  rcases signErr with _ | e
  · obtain ⟨tx0, hmk, -, hgas, -, -⟩ := makeNextTransaction_none cfg t (some r) 75000 a p
    rw [show (sendNextTransaction cfg t r a p none se tf fuel).1 =
        sendLoop tx0 se tf fuel 0 by rw [sendNextTransaction, hmk]] at h
    obtain ⟨rfl, -⟩ := sendLoop_accepted_eq tx0 tx se tf fuel 0 h
    exact hgas
  · rw [show sendNextTransaction cfg t r a p (some e) se tf fuel =
        (.fatal (.signingFailure e), t) by rw [sendNextTransaction, makeNextTransaction_some]] at h
    exact absurd h (by simp)

/-- Witness for C9: the concrete transaction accepted on the third attempt
carries gas limit 75000. -/
theorem sendNextTransaction_gasLimit_75000_witness :
    (⟨.legacy 0 (some 5) 99 75000 cfg0.gasPrice [], cfg0.chainID, vaultKeyHex⟩ :
      SignedTransaction).txData.gas = 75000 :=
  sendNextTransaction_gasLimit_75000 cfg0 env0 5 99 [] none
    (fun n => if n < 2 then some "busy" else none) (fun _ => false) 5
    ⟨.legacy 0 (some 5) 99 75000 cfg0.gasPrice [], cfg0.chainID, vaultKeyHex⟩ rfl

lemma checkLive_cons_ok (c : Nat → Bool) (d : Nat → Nat → Bool) (p : Nat) (rest : List Nat) :
    ∀ fuel time u, checkLive c d (p :: rest) fuel time = .ok u →
    ∃ τ fuel2, time ≤ τ ∧ d p τ = true ∧ (∀ s, time ≤ s → s < τ → d p s = false) ∧
      fuel2 ≤ fuel ∧ checkLive c d rest fuel2 (τ + 1) = .ok u := by
  intro fuel
  induction fuel with
  | zero => intro time u h; simp [checkLive] at h
  | succ fuel ih =>
    intro time u h
    rw [checkLive] at h
    by_cases hc : c time
    · simp [hc] at h
    · by_cases hd : d p time
      · simp only [hc, hd, if_false, if_true, Bool.false_eq_true] at h
        exact ⟨time, fuel, le_refl time, hd,
          fun s hs1 hs2 => absurd (lt_of_le_of_lt hs1 hs2) (lt_irrefl time),
          by omega, h⟩
      · simp only [hc, hd, if_false, Bool.false_eq_true] at h
        obtain ⟨τ, fuel2, h1, h2, h3, h4, h5⟩ := ih (time + 1) u h
        refine ⟨τ, fuel2, by omega, h2, ?_, by omega, h5⟩
        intro s hs1 hs2
        rcases eq_or_lt_of_le hs1 with rfl | hlt
        · simpa using hd
        · exact h3 s (by omega) hs2

lemma checkLive_ctxErr_deadline (c : Nat → Bool) (d : Nat → Nat → Bool) :
    ∀ fuel ports time u, checkLive c d ports fuel time = .ctxErr u → c u = true := by
  intro fuel
  induction fuel with
  | zero =>
    intro ports time u h
    cases ports with
    | nil => simp [checkLive] at h
    | cons p rest => simp [checkLive] at h
  | succ fuel ih =>
    intro ports time u h
    cases ports with
    | nil => simp [checkLive] at h
    | cons p rest =>
      rw [checkLive] at h
      by_cases hc : c time
      · rw [if_pos hc] at h
        injection h with h
        rwa [← h]
      · rw [if_neg hc] at h
        by_cases hd : d p time
        · rw [if_pos hd] at h
          exact ih rest (time + 1) u h
        · rw [if_neg hd] at h
          exact ih (p :: rest) (time + 1) u h

lemma checkLive_ok_no_deadline (c : Nat → Bool) (d : Nat → Nat → Bool) :
    ∀ fuel ports time u, checkLive c d ports fuel time = .ok u →
      ∀ s, time ≤ s → s < u → c s = false := by
  intro fuel
  induction fuel with
  | zero =>
    intro ports time u h s hs1 hs2
    cases ports with
    | nil =>
      have h' : LiveResult.ok time = .ok u := h
      injection h' with h'
      exfalso
      omega
    | cons p rest => simp [checkLive] at h
  | succ fuel ih =>
    intro ports time u h s hs1 hs2
    cases ports with
    | nil =>
      have h' : LiveResult.ok time = .ok u := h
      injection h' with h'
      exfalso
      omega
    | cons p rest =>
      rw [checkLive] at h
      by_cases hc : c time
      · rw [if_pos hc] at h
        simp at h
      · rw [if_neg hc] at h
        rcases eq_or_lt_of_le hs1 with rfl | hlt
        · simpa using hc
        · by_cases hd : d p time
          · rw [if_pos hd] at h
            exact ih rest (time + 1) u h s (by omega) hs2
          · rw [if_neg hd] at h
            exact ih (p :: rest) (time + 1) u h s (by omega) hs2

lemma checkLive_not_outOfFuel (c : Nat → Bool) (d : Nat → Nat → Bool)
    (mono : ∀ s u, s ≤ u → c s = true → c u = true) :
    ∀ k fuel ports time, c (time + k) = true → k < fuel →
      checkLive c d ports fuel time ≠ .outOfFuel := by
  intro k
  induction k with
  | zero =>
    intro fuel ports time hk hf
    cases ports with
    | nil => simp [checkLive]
    | cons p rest =>
      match fuel, hf with
      | fuel + 1, _ =>
        rw [checkLive, if_pos (by simpa using hk)]
        simp
  | succ k ih =>
    intro fuel ports time hk hf
    cases ports with
    | nil => simp [checkLive]
    | cons p rest =>
      match fuel, hf with
      | fuel + 1, hf =>
        rw [checkLive]
        by_cases hc : c time
        · rw [if_pos hc]; simp
        · rw [if_neg hc]
          have hk1 : c (time + 1 + k) = true := by
            rw [show time + 1 + k = time + (k + 1) by omega]; exact hk
          by_cases hd : d p time
          · rw [if_pos hd]
            exact ih fuel rest (time + 1) hk1 (by omega)
          · rw [if_neg hd]
            exact ih fuel (p :: rest) (time + 1) hk1 (by omega)

/-- Claim C5: `CheckEthEngineLive` returns success only after the HTTP RPC
port and then the Engine API port have each had a successful dial, strictly
in that order (the second port is only probed after the first one's first
successful dial); a context-deadline return happens only when the single
shared deadline predicate has fired; when the shared deadline eventually
fires the run cannot exhaust its fuel; a success return implies the shared
deadline had not fired at any tick before completion; hence when a
monotone deadline fires at tick k (with fuel past k) and the targets were
not all satisfied by tick k, the run returns the timeout error — either
the check completed with all targets satisfied no later than k, or the
result is the context-deadline error; the polling interval is the fixed
100ms with a 5s overall timeout. -/
theorem CheckEthEngineLive_spec (c : Nat → Bool) (d : Nat → Nat → Bool) (fuel : Nat) :
    (∀ u, CheckEthEngineLive c d fuel = .ok u →
      ∃ ta tb, ta < tb ∧ tb < u ∧
        d EthPortHTTP ta = true ∧ d EnginePortHTTP tb = true ∧
        (∀ s, s < ta → d EthPortHTTP s = false) ∧
        (∀ s, ta < s → s < tb → d EnginePortHTTP s = false)) ∧
    (∀ u, CheckEthEngineLive c d fuel = .ctxErr u → c u = true) ∧
    ((∀ s u, s ≤ u → c s = true → c u = true) →
      ∀ k, c k = true → k < fuel → CheckEthEngineLive c d fuel ≠ .outOfFuel) ∧
    (∀ u, CheckEthEngineLive c d fuel = .ok u → ∀ s, s < u → c s = false) ∧
    ((∀ s u, s ≤ u → c s = true → c u = true) →
      ∀ k, c k = true → k < fuel →
        (∃ u, CheckEthEngineLive c d fuel = .ok u ∧ u ≤ k) ∨
        (∃ u, CheckEthEngineLive c d fuel = .ctxErr u ∧ c u = true)) ∧
    checkLiveTickerMs = 100 ∧ checkLiveTimeoutMs = 5000 := by
  refine ⟨?_, ?_, ?_, ?_, ?_, rfl, rfl⟩
  · intro u h
    rw [CheckEthEngineLive] at h
    obtain ⟨ta, f2, -, hda, hfa, -, hrest⟩ :=
      checkLive_cons_ok c d EthPortHTTP [EnginePortHTTP] fuel 0 u h
    obtain ⟨tb, f3, h0b, hdb, hfb, -, hnil⟩ :=
      checkLive_cons_ok c d EnginePortHTTP [] f2 (ta + 1) u hrest
    have hu : tb + 1 = u := by
      have := hnil
      rw [checkLive] at this
      injection this
    refine ⟨ta, tb, by omega, by omega, hda, hdb, ?_, ?_⟩
    · intro s hs
      exact hfa s (by omega) hs
    · intro s hs1 hs2
      exact hfb s (by omega) hs2
  · intro u h
    rw [CheckEthEngineLive] at h
    exact checkLive_ctxErr_deadline c d fuel _ 0 u h
  · intro mono k hk hkf
    rw [CheckEthEngineLive]
    exact checkLive_not_outOfFuel c d mono k fuel [EthPortHTTP, EnginePortHTTP] 0
      (by simpa using hk) hkf
  · intro u h s hs
    rw [CheckEthEngineLive] at h
    exact checkLive_ok_no_deadline c d fuel _ 0 u h s (by omega) hs
  · intro mono k hk hkf
    rcases hres : CheckEthEngineLive c d fuel with u | u | _
    · left
      refine ⟨u, rfl, ?_⟩
      by_contra h'
      have hku : k < u := by omega
      have hres' := hres
      rw [CheckEthEngineLive] at hres'
      have := checkLive_ok_no_deadline c d fuel _ 0 u hres' k (by omega) hku
      simp [hk] at this
    · right
      have hres' := hres
      rw [CheckEthEngineLive] at hres'
      exact ⟨u, rfl, checkLive_ctxErr_deadline c d fuel _ 0 u hres'⟩
    · exfalso
      have hnf := checkLive_not_outOfFuel c d mono k fuel [EthPortHTTP, EnginePortHTTP] 0
        (by simpa using hk) hkf
      rw [CheckEthEngineLive] at hres
      exact hnf hres

/-- Witness for C5: with the RPC port reachable from tick 1 and the Engine
port from tick 3 and the deadline never firing, the check succeeds at tick
4, and the ordered successful dials exist. -/
theorem CheckEthEngineLive_spec_witness :
    ∃ ta tb, ta < tb ∧ tb < 4 ∧
      (fun p s => if p = EthPortHTTP then decide (1 ≤ s) else decide (3 ≤ s))
        EthPortHTTP ta = true ∧
      (fun p s => if p = EthPortHTTP then decide (1 ≤ s) else decide (3 ≤ s))
        EnginePortHTTP tb = true ∧
      (∀ s, s < ta →
        (fun p s => if p = EthPortHTTP then decide (1 ≤ s) else decide (3 ≤ s))
          EthPortHTTP s = false) ∧
      (∀ s, ta < s → s < tb →
        (fun p s => if p = EthPortHTTP then decide (1 ≤ s) else decide (3 ≤ s))
          EnginePortHTTP s = false) :=
  (CheckEthEngineLive_spec (fun _ => false)
    (fun p s => if p = EthPortHTTP then decide (1 ≤ s) else decide (3 ≤ s)) 10).1
    4 (by decide)

lemma length_le_one_of_forall_eq {l : List Nat} (hnd : l.Nodup) (c : Nat)
    (h : ∀ x ∈ l, x = c) : l.length ≤ 1 := by
  cases l with
  | nil => simp
  | cons x l' =>
    cases l' with
    | nil => simp
    | cons y l'' =>
      exfalso
      have hx := h x (by simp)
      have hy := h y (by simp)
      rw [List.nodup_cons] at hnd
      exact hnd.1 (by rw [hx.trans hy.symm]; exact List.mem_cons_self y l'')

lemma Ctx_components (t : TestEnv) :
    (t.Ctx).1 = t.nextCtxId ∧
    (t.Ctx).2.lastCtx = some t.nextCtxId ∧
    (t.Ctx).2.nextCtxId = t.nextCtxId + 1 ∧
    (t.Ctx).2.issued = t.issued ++ [t.nextCtxId] ∧
    (t.Ctx).2.cancelled =
      (match t.lastCtx with | some c => c :: t.cancelled | none => t.cancelled) := by
  rcases hl : t.lastCtx with _ | c <;> simp [TestEnv.Ctx, hl]

lemma CtxWF_liveCtxs_le_one (t : TestEnv) (h : CtxWF t) : t.liveCtxs.length ≤ 1 := by
  obtain ⟨h1, h2, h3, h4, h5, h6⟩ := h
  rcases hl : t.lastCtx with _ | c
  · have hnil : t.liveCtxs = [] := by
      rw [TestEnv.liveCtxs, List.filter_eq_nil_iff]
      intro a ha
      have := h5 a ha (by rw [hl]; simp)
      simp only [decide_eq_true_eq]
      omega
    simp [hnil]
  · refine length_le_one_of_forall_eq (List.Nodup.filter _ h3) c ?_
    intro x hx
    rw [TestEnv.liveCtxs, List.mem_filter] at hx
    have hx2 : t.cancelled.count x = 0 := by simpa using hx.2
    by_contra hne
    have := h5 x hx.1 (by rw [hl]; intro he; injection he with he; exact hne he.symm)
    omega

lemma Ctx_preserves_CtxWF (t : TestEnv) (h : CtxWF t) : CtxWF (t.Ctx).2 := by
  obtain ⟨h1, h2, h3, h4, h5, h6⟩ := h
  obtain ⟨hc1, hlast, hnext, hissued, hcancelled⟩ := Ctx_components t
  rcases hl : t.lastCtx with _ | c0 <;> rw [hl] at hcancelled
  · refine ⟨?_, ?_, ?_, ?_, ?_, ?_⟩
    · intro i hi
      rw [hissued] at hi
      rw [hnext]
      rcases List.mem_append.mp hi with hi | hi
      · have := h1 i hi; omega
      · simp at hi; omega
    · intro i hi
      rw [hcancelled] at hi
      rw [hnext]
      have := h2 i hi; omega
    · rw [hissued, List.nodup_append]
      refine ⟨h3, by simp, ?_⟩
      intro a ha hb
      simp only [List.mem_singleton] at hb
      subst hb
      exact absurd (h1 _ ha) (lt_irrefl _)
    · intro i hi
      rw [hlast] at hi
      injection hi with hi
      subst hi
      refine ⟨by rw [hissued]; simp, ?_⟩
      rw [hcancelled, List.count_eq_zero]
      intro hmem
      exact absurd (h2 _ hmem) (lt_irrefl _)
    · intro i hi hne
      rw [hissued] at hi
      rw [hlast] at hne
      rw [hcancelled]
      rcases List.mem_append.mp hi with hi | hi
      · exact h5 i hi (by rw [hl]; simp)
      · simp only [List.mem_singleton] at hi
        subst hi
        exact absurd rfl hne
    · intro i
      rw [hcancelled]
      exact h6 i
  · have hc0 := h4 c0 hl
    have hc0lt : c0 < t.nextCtxId := h1 c0 hc0.1
    refine ⟨?_, ?_, ?_, ?_, ?_, ?_⟩
    · intro i hi
      rw [hissued] at hi
      rw [hnext]
      rcases List.mem_append.mp hi with hi | hi
      · have := h1 i hi; omega
      · simp at hi; omega
    · intro i hi
      rw [hcancelled] at hi
      rw [hnext]
      rcases List.mem_cons.mp hi with rfl | hi
      · omega
      · have := h2 i hi; omega
    · rw [hissued, List.nodup_append]
      refine ⟨h3, by simp, ?_⟩
      intro a ha hb
      simp only [List.mem_singleton] at hb
      subst hb
      exact absurd (h1 _ ha) (lt_irrefl _)
    · intro i hi
      rw [hlast] at hi
      injection hi with hi
      subst hi
      refine ⟨by rw [hissued]; simp, ?_⟩
      rw [hcancelled, List.count_cons_of_ne (by omega), List.count_eq_zero]
      intro hmem
      exact absurd (h2 _ hmem) (lt_irrefl _)
    · intro i hi hne
      rw [hissued] at hi
      rw [hlast] at hne
      rw [hcancelled]
      have hi' : i ∈ t.issued := by
        rcases List.mem_append.mp hi with hi | hi
        · exact hi
        · simp only [List.mem_singleton] at hi
          subst hi
          exact absurd rfl hne
      by_cases hic : i = c0
      · subst hic
        rw [List.count_cons_self]
        omega
      · rw [List.count_cons_of_ne hic]
        exact h5 i hi' (by rw [hl]; intro he; injection he with he; exact hic he.symm)
    · intro i
      rw [hcancelled]
      by_cases hic : i = c0
      · subst hic
        rw [List.count_cons_self, hc0.2]
      · rw [List.count_cons_of_ne hic]
        exact h6 i

/-- Claim C6: in a well-formed environment, calling `Ctx` twice cancels the
context returned by the first call exactly once (it is uncancelled after
the first call and has cancellation count exactly 1 after the second), the
second call returns a distinct context that remains uncancelled, the
accessor preserves well-formedness, and after each call at most one issued
context is live. -/
theorem Ctx_cancel_spec (t : TestEnv) (h : CtxWF t) :
    ((t.Ctx).2).cancelled.count (t.Ctx).1 = 0 ∧
    (((t.Ctx).2.Ctx).2).cancelled.count (t.Ctx).1 = 1 ∧
    ((t.Ctx).2.Ctx).1 ≠ (t.Ctx).1 ∧
    (((t.Ctx).2.Ctx).2).cancelled.count ((t.Ctx).2.Ctx).1 = 0 ∧
    CtxWF (t.Ctx).2 ∧ CtxWF ((t.Ctx).2.Ctx).2 ∧
    ((t.Ctx).2).liveCtxs.length ≤ 1 ∧ (((t.Ctx).2.Ctx).2).liveCtxs.length ≤ 1 := by
  have hWF1 := Ctx_preserves_CtxWF t h
  have hWF2 := Ctx_preserves_CtxWF (t.Ctx).2 hWF1
  obtain ⟨hc1, hlast1, hnext1, -, -⟩ := Ctx_components t
  obtain ⟨hc2, hlast2, -, -, hcanc2⟩ := Ctx_components (t.Ctx).2
  have hcount1 : ((t.Ctx).2).cancelled.count (t.Ctx).1 = 0 := by
    rw [hc1]
    exact (hWF1.2.2.2.1 t.nextCtxId hlast1).2
  refine ⟨hcount1, ?_, ?_, ?_, hWF1, hWF2, CtxWF_liveCtxs_le_one _ hWF1,
    CtxWF_liveCtxs_le_one _ hWF2⟩
  · rw [hcanc2, hlast1]
    rw [hc1] at hcount1 ⊢
    rw [List.count_cons_self, hcount1]
  · rw [hc1, hc2, hnext1]
    omega
  · rw [hc2]
    exact (hWF2.2.2.2.1 ((t.Ctx).2).nextCtxId hlast2).2

/-- Witness for C6: two successive `Ctx` calls on the fresh sample
environment. -/
theorem Ctx_cancel_spec_witness :
    ((env0.Ctx).2).cancelled.count (env0.Ctx).1 = 0 ∧
    (((env0.Ctx).2.Ctx).2).cancelled.count (env0.Ctx).1 = 1 ∧
    ((env0.Ctx).2.Ctx).1 ≠ (env0.Ctx).1 ∧
    (((env0.Ctx).2.Ctx).2).cancelled.count ((env0.Ctx).2.Ctx).1 = 0 ∧
    CtxWF (env0.Ctx).2 ∧ CtxWF ((env0.Ctx).2.Ctx).2 ∧
    ((env0.Ctx).2).liveCtxs.length ≤ 1 ∧ (((env0.Ctx).2.Ctx).2).liveCtxs.length ≤ 1 :=
  Ctx_cancel_spec env0 (by refine ⟨?_, ?_, ?_, ?_, ?_, ?_⟩ <;> simp [env0])

end TestEnvGo
